import Mathlib

/-!
Shallow embedding of the bisonbotkit core (notification multiplexer and
logging backend), translated from the Go sources:

* `src/logging/logger.go` — `LogBuffer`, `LogBackend`, `NewLogBackend`,
  `LogBackend.Write`, `LogBackend.Logger`, `LogBackend.SetLogLevel`,
  the `errMsgRE` error-record pattern;
* `src/botkit.go` — the errgroup-based `Bot.Run` notification multiplexer.

Go slices, maps and strings are modelled with Lean `List`/`String`;
machine integers that can only hold small non-negative counts are
modelled with `Nat`.  A Go call that can panic is modelled as an
`Option`-returning function (`none` = panic); a Go call returning
`error` is modelled with `Except String`.
-/

namespace BisonBotKit


/-! ## Severity levels (interface boundary of the external decred/slog library) -/

/-- Log severity levels, mirroring `slog.Level` from the external
decred/slog dependency (interface boundary; not code of this repository). -/
inductive Level where
  | trace
  | debug
  | info
  | warn
  | error
  | critical
  | off
deriving DecidableEq, Repr

/-- The Go function `strings.Split(s, sep)` for a one-character separator,
modelled on the character list: splitting around each occurrence of the
separator, yielding one (possibly empty) field more than there are
separators; splitting the empty string yields one empty field. -/
def splitOnChar (sep : Char) : List Char → List (List Char)
  | [] => [[]]
  | c :: rest =>
    if c = sep then [] :: splitOnChar sep rest
    else
      match splitOnChar sep rest with
      | [] => [[c]]
      | g :: gs => (c :: g) :: gs

/-- The Go function `strings.Split` on `String`, for the one-character separators
(`","` and `"="`) the source uses. -/
def goSplit (s : String) (sep : Char) : List String :=
  (splitOnChar sep s.data).map (fun cs => String.mk cs)

/-- The Go function `strings.ToLower` restricted to its ASCII action (all severity
tokens compared against are ASCII). -/
def goToLower (s : String) : String :=
  String.mk (s.data.map Char.toLower)

/-- Modelled at the interface boundary of the external decred/slog
library: `slog.LevelFromString` lower-cases its argument and maps the
recognized tokens to levels, returning `(LevelInfo, false)` for an
unrecognized token. -/
def levelFromString (s : String) : Level × Bool :=
  match goToLower s with
  | "trace" => (Level.trace, true)
  | "trc" => (Level.trace, true)
  | "debug" => (Level.debug, true)
  | "dbg" => (Level.debug, true)
  | "info" => (Level.info, true)
  | "inf" => (Level.info, true)
  | "warn" => (Level.warn, true)
  | "wrn" => (Level.warn, true)
  | "error" => (Level.error, true)
  | "err" => (Level.error, true)
  | "critical" => (Level.critical, true)
  | "crt" => (Level.critical, true)
  | "off" => (Level.off, true)
  | _ => (Level.info, false)

/-! ## LogBuffer (src/logging/logger.go lines 19-62) -/
/-- Structure `LogBuffer` from `src/logging/logger.go`: a bounded buffer of recent
log lines.  The mutex is irrelevant in the sequential model. -/
structure LogBuffer where
  lines : List String
  max : Nat
deriving DecidableEq, Repr

/-- Constructor `NewLogBuffer` from `src/logging/logger.go`: empty buffer with the
given capacity (`make([]string, 0, maxLines)` has length 0 and
capacity `maxLines`). -/
def NewLogBuffer (maxLines : Nat) : LogBuffer :=
  { lines := [], max := maxLines }

/-- Method `LogBuffer.Write` from `src/logging/logger.go`.  In Go the eviction
branch executes `b.lines = append(b.lines[1:], line)`; the slice
expression `b.lines[1:]` panics when `cap(b.lines) = 0`.  The only
reachable state with the eviction branch taken and `len(b.lines) = 0`
is a buffer created with `maxLines = 0`, whose backing array has
capacity 0, so in the model the branch condition `lines.length = 0`
characterises the panic exactly; `none` models that panic.  On
success Go returns `(len(p), nil)`. -/
def LogBuffer.write (b : LogBuffer) (line : String) : Option (LogBuffer × Nat) :=
  if b.lines.length ≥ b.max then
    if b.lines.length = 0 then
      none
    else
      some ({ b with lines := b.lines.drop 1 ++ [line] }, line.length)
  else
    some ({ b with lines := b.lines ++ [line] }, line.length)

/-- Method `LogBuffer.LastLogLines` from `src/logging/logger.go`: clamps `n` to
the current length, then copies the last `n` lines into a fresh slice. -/
def LogBuffer.lastLogLines (b : LogBuffer) (n : Nat) : List String :=
  b.lines.drop (b.lines.length -
    (if n > b.lines.length then b.lines.length else n))

/-- Iterated `LogBuffer.write` over a list of lines (a client performing
a sequence of appends); `none` as soon as one write panics. -/
def LogBuffer.writeAll (b : LogBuffer) (input : List String) : Option LogBuffer :=
  match input with
  | [] => some b
  | line :: rest =>
    match b.write line with
    | none => none
    | some (b', _) => b'.writeAll rest

/-- The last `n` elements of a list (all of it when `n ≥ length`). -/
def lastN (l : List String) (n : Nat) : List String :=
  l.drop (l.length - n)

/-! ## Error-record pattern (src/logging/logger.go line 17)

`var errMsgRE = regexp.MustCompile(`...`)` is an anchored prefix pattern;
each of its 30 positions matches either an ASCII digit (`\d` in Go RE2 is
`[0-9]`) or one literal character. -/
/-- One position of an anchored character-class pattern: an ASCII digit
or a literal character. -/
inductive PatItem where
  | digit
  | lit (c : Char)
deriving DecidableEq, Repr

/-- Whether a character matches one pattern position. -/
def PatItem.matchesChar : PatItem → Char → Bool
  | PatItem.digit, c => c.isDigit
  | PatItem.lit t, c => c = t

/-- Anchored prefix match: every pattern position must match the
corresponding character (the text may be longer). -/
def matchesPat : List PatItem → List Char → Bool
  | [], _ => true
  | _ :: _, [] => false
  | p :: ps, c :: cs => p.matchesChar c && matchesPat ps cs

/-- Pattern `errMsgRE` from `src/logging/logger.go`, transcribed position by
position from `^\d{4}-\d\d-\d\d \d\d:\d\d:\d\d\.\d{3} \[ERR] `
(the unescaped `]` is a literal in RE2). -/
def errPattern : List PatItem :=
  [PatItem.digit, PatItem.digit, PatItem.digit, PatItem.digit, PatItem.lit '-',
   PatItem.digit, PatItem.digit, PatItem.lit '-',
   PatItem.digit, PatItem.digit, PatItem.lit ' ',
   PatItem.digit, PatItem.digit, PatItem.lit ':',
   PatItem.digit, PatItem.digit, PatItem.lit ':',
   PatItem.digit, PatItem.digit, PatItem.lit '.',
   PatItem.digit, PatItem.digit, PatItem.digit, PatItem.lit ' ',
   PatItem.lit '[', PatItem.lit 'E', PatItem.lit 'R', PatItem.lit 'R',
   PatItem.lit ']', PatItem.lit ' ']

/-- Match test `errMsgRE.Match p` from `src/logging/logger.go`. -/
def errMsgMatch (s : String) : Bool :=
  matchesPat errPattern s.data

/-- Written from the words of the spec, independently of the regexp: the
fixed-width template `YYYY-MM-DD HH:MM:SS.mmm [ERR] ` where a `0`
placeholder stands for any ASCII digit and every other character is
literal (literal brackets and spaces included). -/
def errFormTemplate : String := "0000-00-00 00:00:00.000 [ERR] "

/-- The spec-side pattern derived from the template. -/
def specErrPattern : List PatItem :=
  errFormTemplate.data.map (fun c => if c = '0' then PatItem.digit else PatItem.lit c)

/-! ## LogBackend (src/logging/logger.go lines 64-250) -/
/-- Structure `LogBackend` from `src/logging/logger.go`.  The rotating-file sink,
stdout sink and callbacks are opaque side-channels; we model whether each
is configured (`hasRotator`, `useStdout`, `hasLogCb`, `hasErrCb`), the
level state, the instantiated logger handles (`loggers`, an association
of subsystem name to the current level of the handle — Go caches one `slog.Logger`
object per name whose only model-relevant mutable state is its level),
and the in-memory buffer. -/
structure LogBackend where
  hasRotator : Bool
  defaultLogLevel : Level
  logLevels : List (String × Level)
  loggers : List (String × Level)
  logBuffer : LogBuffer
  hasLogCb : Bool
  hasErrCb : Bool
  useStdout : Bool
deriving DecidableEq, Repr

/-- Association-list update with Go map semantics: replace the existing
binding for the key or add a new one. -/
def mapUpdate (m : List (String × Level)) (key : String) (v : Level) :
    List (String × Level) :=
  match m with
  | [] => [(key, v)]
  | (k, w) :: rest =>
    if k = key then (k, v) :: rest else (k, w) :: mapUpdate rest key v

/-- Result of one `LogBackend.Write` call: the updated backend, the
payload passed to the line-observer callback (if invoked) and the payload
passed to the error callback (if invoked), plus the returned byte count. -/
structure WriteResult where
  backend : LogBackend
  logCbPayload : Option String
  errCbPayload : Option String
  count : Nat
deriving DecidableEq, Repr

/-- Method `LogBackend.Write` from `src/logging/logger.go` lines 148-174: feed
the rotator and stdout (opaque sinks), append to the in-memory buffer
(whose capacity-0 panic propagates, modelled by `none`; its Go `error`
return is always `nil` so the early-return branch is dead), invoke the
line callback with the whole record, and invoke the error callback with
`p[24:]` when `errMsgRE` matches.  `p[24:]` slices bytes, but a matching
first 24 characters of a matching record are ASCII, so dropping 24 characters is the
same as dropping 24 bytes. -/
def LogBackend.write (b : LogBackend) (p : String) : Option WriteResult :=
  match b.logBuffer.write p with
  | none => none
  | some (buf', _) =>
    some { backend := { b with logBuffer := buf' }
           logCbPayload := if b.hasLogCb then some p else none
           errCbPayload :=
             if b.hasErrCb && errMsgMatch p then some (p.drop 24) else none
           count := p.length }

/-- A concrete backend with an error callback configured, for the
closed-form record-classification facts. -/
def backendWithErrCb : LogBackend :=
  { hasRotator := false
    defaultLogLevel := Level.info
    logLevels := []
    loggers := []
    logBuffer := NewLogBuffer 100
    hasLogCb := false
    hasErrCb := true
    useStdout := true }

/-! ## NewLogBackend (src/logging/logger.go lines 79-145) -/
/-- Structure `LogConfig` from `src/logging/logger.go`.  The two callbacks are
opaque; only their presence matters to the model. -/
structure LogConfig where
  logFile : String
  debugLevel : String
  maxLogFiles : Nat
  maxBufferLines : Nat
  hasLogCallback : Bool
  hasErrorCallback : Bool
  useStdout : Option Bool
deriving DecidableEq, Repr

/-- The parse loop of `NewLogBackend` (`src/logging/logger.go` lines
125-141), folding the comma-separated tokens over the default level and
the per-subsystem map in source order.  Note the source discards the
`ok` result of `slog.LevelFromString` in both the one-field and
two-field branches (`b.defaultLogLevel, _ = ...` and `level, _ := ...`),
so an unrecognized severity silently becomes `LevelInfo`; only a token
that splits into more than two `=`-separated fields reaches the error
return (the Go `strings.Split` never yields zero fields, so the catch-all
arm is only ever reached with three or more). -/
def parseDebugTokens : List String → Level → List (String × Level) →
    Except String (Level × List (String × Level))
  | [], d, m => Except.ok (d, m)
  | v :: rest, d, m =>
    match goSplit v '=' with
    | [f0] =>
      if f0 ≠ "" then parseDebugTokens rest (levelFromString f0).1 m
      else parseDebugTokens rest d m
    | [subsys, f1] =>
      parseDebugTokens rest d (mapUpdate m subsys (levelFromString f1).1)
    | _ => Except.error ("unable to parse " ++ v ++ " as subsys=level debuglevel string")

/-- The backend value built by `NewLogBackend` before the debug-level
parse (`src/logging/logger.go` lines 111-122): default level info, empty
maps, fresh buffer of the configured capacity, stdout defaulting to
true.  The directory creation and rotator construction are filesystem
side effects modelled as succeeding (their failures depend only on the
environment, not on the configuration fields the claims quantify over);
`CleanAndExpandPath` maps `""` to `""` and a rotator is created exactly
when the path is non-empty. -/
def initialBackend (config : LogConfig) : LogBackend :=
  { hasRotator := config.logFile != ""
    defaultLogLevel := Level.info
    logLevels := []
    loggers := []
    logBuffer := NewLogBuffer config.maxBufferLines
    hasLogCb := config.hasLogCallback
    hasErrCb := config.hasErrorCallback
    useStdout := config.useStdout.getD true }

/-- Constructor `NewLogBackend` from `src/logging/logger.go`: build the initial
backend, then parse the debug-level string when non-empty, failing with
the parse error and no backend. -/
def NewLogBackend (config : LogConfig) : Except String LogBackend :=
  if config.debugLevel = "" then Except.ok (initialBackend config)
  else
    match parseDebugTokens (goSplit config.debugLevel ',')
        (initialBackend config).defaultLogLevel (initialBackend config).logLevels with
    | Except.error e => Except.error e
    | Except.ok (d, m) =>
      Except.ok { initialBackend config with defaultLogLevel := d, logLevels := m }

/-- A configuration whose debug level is the single unrecognized token
`bogus` (not a severity, not a `subsys=level` pair). -/
def cfgBogus : LogConfig :=
  { logFile := ""
    debugLevel := "bogus"
    maxLogFiles := 3
    maxBufferLines := 10
    hasLogCallback := false
    hasErrorCallback := false
    useStdout := none }

/-! ## LogBackend.Logger (src/logging/logger.go lines 177-195) -/
/-- Method `LogBackend.Logger` from `src/logging/logger.go`: return the cached
handle if present; otherwise create one, register it, and set its level
to the subsystem override if configured, else the backend default.  A
handle is the pair (subsystem name, current level); Go returns the same
`slog.Logger` object on repeated calls, which in the value model is the
same registered entry. -/
def LogBackend.logger (b : LogBackend) (subsys : String) :
    LogBackend × (String × Level) :=
  match b.loggers.lookup subsys with
  | some lvl => (b, (subsys, lvl))
  | none =>
    let lvl := (b.logLevels.lookup subsys).getD b.defaultLogLevel
    ({ b with loggers := b.loggers ++ [(subsys, lvl)] }, (subsys, lvl))

/-! ## LogBackend.SetLogLevel (src/logging/logger.go lines 198-238) -/
/-- Method `LogBackend.SetLogLevel` from `src/logging/logger.go`, returning the
backend state after the call together with the returned error (`none` =
`nil`).  Empty spec: immediate `nil`, no change.  One field: the source
assigns `b.defaultLogLevel, ok = slog.LevelFromString(fields[0])` before
checking `ok`, so an unrecognized bare token leaves the default
overwritten with `LevelInfo` (the failure value) when the error returns;
on success every instantiated logger without an explicit override is set
to the new default.  Two fields: on success the subsystem override is
recorded and an already-instantiated logger for it is updated; on failure
nothing changes.  More fields: parse error, no change. -/
def LogBackend.setLogLevel (b : LogBackend) (s : String) :
    LogBackend × Option String :=
  if s = "" then (b, none)
  else
    match goSplit s '=' with
    | [f0] =>
      let r := levelFromString f0
      if r.2 then
        ({ b with defaultLogLevel := r.1,
                  loggers := b.loggers.map (fun e =>
                    if (b.logLevels.lookup e.1).isSome then e else (e.1, r.1)) },
          none)
      else
        ({ b with defaultLogLevel := r.1 }, some ("unknown log level " ++ f0))
    | [subsys, f1] =>
      let r := levelFromString f1
      if r.2 then
        ({ b with logLevels := mapUpdate b.logLevels subsys r.1,
                  loggers := b.loggers.map (fun e =>
                    if e.1 = subsys then (e.1, r.1) else e) },
          none)
      else
        (b, some ("unknown log level " ++ f1))
    | _ => (b, some ("unable to parse " ++ s ++ " as subsys=level debuglevel string"))

/-- A backend with one overridden (`Y`) and one non-overridden (`X`)
instantiated logger, exercising the level re-application logic. -/
def demoBackend : LogBackend :=
  { hasRotator := false
    defaultLogLevel := Level.info
    logLevels := [("Y", Level.debug)]
    loggers := [("X", Level.info), ("Y", Level.debug)]
    logBuffer := NewLogBuffer 5
    hasLogCb := false
    hasErrCb := false
    useStdout := true }

/-! ## Notification multiplexer: Bot.Run (src/botkit.go lines 87-139)

`Run` builds an `errgroup` over the shared context and launches, in
source order, one goroutine per non-nil notification channel, each
running the corresponding `*Ntfns`/`tip*` receive loop; it then returns
`g.Wait()`.  The subscription loops and the errgroup are modelled at
their interface boundary: each launched task is an execution that stops
at some time with either an error (stream failure, or the cancellation
reason once the shared context is cancelled) or `nil`; `Wait` blocks
until every launched function has returned and yields the error of the
first function to return a non-nil error, or `nil` if none did —
in particular, with zero launched functions it returns `nil`
immediately. -/
/-- The eight notification kinds of `Bot.Run` (`src/botkit.go`). -/
inductive TaskKind where
  | gc
  | invite
  | pm
  | kx
  | post
  | postStatus
  | tipProgress
  | tipReceived
deriving DecidableEq, Repr

/-- Which notification channels of the `Bot` are non-nil (`true` =
channel configured). -/
structure BotChans where
  gcChan : Bool
  inviteChan : Bool
  pmChan : Bool
  kxChan : Bool
  postChan : Bool
  postStatusChan : Bool
  tipProgressChan : Bool
  tipReceivedChan : Bool
deriving DecidableEq, Repr

/-- The tasks `Run` launches, one per non-nil channel, in the source
launch order (`src/botkit.go` lines 90-127). -/
def activeTasks (b : BotChans) : List TaskKind :=
  (if b.gcChan then [TaskKind.gc] else []) ++
  (if b.inviteChan then [TaskKind.invite] else []) ++
  (if b.pmChan then [TaskKind.pm] else []) ++
  (if b.kxChan then [TaskKind.kx] else []) ++
  (if b.postChan then [TaskKind.post] else []) ++
  (if b.postStatusChan then [TaskKind.postStatus] else []) ++
  (if b.tipProgressChan then [TaskKind.tipProgress] else []) ++
  (if b.tipReceivedChan then [TaskKind.tipReceived] else [])

/-- Observable outcome of one launched task: the time at which its
function returns and the value it returns (`some e` = error `e`,
`none` = `nil`).  A task that is stopped by cancellation returns the
cancellation reason as its error. -/
structure TaskExec where
  endTime : Nat
  result : Option String
deriving DecidableEq, Repr

/-- Modelled from the errgroup interface boundary: the error of the
first (earliest-returning) task function to return a non-nil error,
with its return time; `none` when no task errors (ties in return time
are a scheduler race; the model resolves them towards the earlier list
entry).  This is the value `g.Wait()` yields. -/
def firstError : List TaskExec → Option (Nat × String)
  | [] => none
  | t :: rest =>
    match t.result with
    | none => firstError rest
    | some e =>
      match firstError rest with
      | none => some (t.endTime, e)
      | some (t1, e1) =>
        if t1 < t.endTime then some (t1, e1) else some (t.endTime, e)

/-- Modelled from the errgroup interface boundary: `Wait` returns only
after every launched function has returned, i.e. no earlier than the
latest task end time (0 when no tasks were launched: immediate return). -/
def waitReturnTime : List TaskExec → Nat
  | [] => 0
  | t :: rest => max t.endTime (waitReturnTime rest)

/-- Method `Bot.Run` from `src/botkit.go`: launch one task per non-nil channel
and return `g.Wait()` — the first task error, or `nil` when no launched
task returned an error (immediately `nil` when nothing was launched). -/
def botRun (chans : BotChans) (exec : TaskKind → TaskExec) : Option String :=
  (firstError ((activeTasks chans).map exec)).map (fun p => p.2)

/-- The time at which `Bot.Run` returns (the `g.Wait()` return time). -/
def botRunReturnTime (chans : BotChans) (exec : TaskKind → TaskExec) : Nat :=
  waitReturnTime ((activeTasks chans).map exec)

/-- The Bot with every notification channel nil. -/
def allNilChans : BotChans :=
  { gcChan := false, inviteChan := false, pmChan := false, kxChan := false
    postChan := false, postStatusChan := false, tipProgressChan := false
    tipReceivedChan := false }

/-! ## Slice-level model of LastLogLines (src/logging/logger.go lines 51-62)

The frame claim about `LastLogLines` is about Go slice aliasing, so here
the buffer is modelled one level lower: a heap of backing arrays plus
slice headers (array id, offset, length, capacity), with `append`,
slicing and `copy` acting on the heap exactly as the Go runtime does. -/
/-- A Go slice header. -/
structure GoSlice where
  arr : Nat
  off : Nat
  len : Nat
  cap : Nat
deriving DecidableEq, Repr

/-- The heap: allocated backing arrays, addressed by list index; a fresh
allocation appends a new array, whose id is the previous length. -/
structure Heap where
  arrays : List (List String)
deriving DecidableEq, Repr

/-- Contents of backing array `i` (unallocated ids read as empty; they
are never dereferenced by valid slices). -/
def getArr (h : Heap) (i : Nat) : List String :=
  (h.arrays.get? i).getD []

/-- The elements a slice header denotes. -/
def readSlice (h : Heap) (s : GoSlice) : List String :=
  ((getArr h s.arr).drop s.off).take s.len

/-- Indexed update `s[i] = v`: writes cell `off + i` of the backing array of the slice. -/
def setSliceIdx (h : Heap) (s : GoSlice) (i : Nat) (v : String) : Heap :=
  ⟨h.arrays.set s.arr (List.set (getArr h s.arr) (s.off + i) v)⟩

/-- The Go builtin `append(s, x)`: write in place into the backing array when
spare capacity exists, otherwise allocate a fresh backing array and copy
(the exact grown capacity follows the policy of the Go runtime for small
slices, doubling plus head-room; its precise value is irrelevant to the
properties proved here — only freshness of the array matters). -/
def goAppend (h : Heap) (s : GoSlice) (x : String) : Heap × GoSlice :=
  if s.len < s.cap then
    (⟨h.arrays.set s.arr (List.set (getArr h s.arr) (s.off + s.len) x)⟩,
      ⟨s.arr, s.off, s.len + 1, s.cap⟩)
  else
    (⟨h.arrays ++ [readSlice h s ++ [x] ++
        List.replicate (2 * s.cap + 1 - (s.len + 1)) ""]⟩,
      ⟨h.arrays.length, 0, s.len + 1, 2 * s.cap + 1⟩)

/-- The `LogBuffer` with its `lines` field kept as a slice header. -/
structure LogBufferH where
  lines : GoSlice
  max : Nat
deriving DecidableEq, Repr

/-- Method `LogBuffer.Write` at the slice level (`src/logging/logger.go` lines
35-48): on eviction `b.lines = append(b.lines[1:], line)`, where
`b.lines[1:]` panics exactly when `len(b.lines) = 0` (`none`), and
otherwise advances the header by one before appending. -/
def writeH (h : Heap) (b : LogBufferH) (line : String) :
    Option (Heap × LogBufferH) :=
  if b.lines.len ≥ b.max then
    if b.lines.len = 0 then none
    else
      some ((goAppend h
          ⟨b.lines.arr, b.lines.off + 1, b.lines.len - 1, b.lines.cap - 1⟩ line).1,
        ⟨(goAppend h
          ⟨b.lines.arr, b.lines.off + 1, b.lines.len - 1, b.lines.cap - 1⟩ line).2,
          b.max⟩)
  else
    some ((goAppend h b.lines line).1, ⟨(goAppend h b.lines line).2, b.max⟩)

/-- Method `LogBuffer.LastLogLines` at the slice level (`src/logging/logger.go`
lines 51-62): clamp `n`, allocate a fresh array of that many cells
(`make([]string, n)` zero-fills with `""`), and `copy` the last `n`
buffered lines into it, returning a slice of the fresh array. -/
def lastLogLinesH (h : Heap) (b : LogBufferH) (n : Nat) : Heap × GoSlice :=
  let n' := if n > b.lines.len then b.lines.len else n
  let content := (readSlice h b.lines).drop (b.lines.len - n')
  (⟨h.arrays ++ [content ++ List.replicate (n' - content.length) ""]⟩,
    ⟨h.arrays.length, 0, n', n'⟩)

/-! ## Theorems -/

/-! ### LogBuffer lemmas -/
theorem lastN_length (l : List String) (n : Nat) :
    (lastN l n).length = min n l.length := by
  unfold lastN
  rw [List.length_drop]
  omega

theorem lastN_append (l r : List String) (N : Nat) :
    lastN (lastN l N ++ r) N = lastN (l ++ r) N := by
  unfold lastN
  rw [← List.drop_append_of_le_length (Nat.sub_le l.length N), List.drop_drop]
  simp only [List.length_drop, List.length_append]
  congr 1
  omega

theorem write_some_eq (b : LogBuffer) (s : String) (b' : LogBuffer) (n : Nat)
    (hlen : b.lines.length ≤ b.max) (h : b.write s = some (b', n)) :
    b'.max = b.max ∧ b'.lines = lastN (b.lines ++ [s]) b.max := by
  unfold LogBuffer.write at h
  by_cases h1 : b.lines.length ≥ b.max
  · by_cases h2 : b.lines.length = 0
    · rw [if_pos h1, if_pos h2] at h
      exact absurd h (by simp)
    · rw [if_pos h1, if_neg h2] at h
      injection h with h
      injection h with h h'
      subst h
      refine ⟨rfl, ?_⟩
      unfold lastN
      rw [List.length_append, List.length_singleton]
      rw [List.drop_append_of_le_length (by omega)]
      have h0 : b.lines.length + 1 - b.max = 1 := by omega
      rw [h0]
  · rw [if_neg h1] at h
    injection h with h
    injection h with h h'
    subst h
    refine ⟨rfl, ?_⟩
    unfold lastN
    rw [List.length_append, List.length_singleton]
    have h0 : b.lines.length + 1 - b.max = 0 := by omega
    rw [h0, List.drop_zero]

theorem writeAll_some (input : List String) :
    ∀ (b b' : LogBuffer), b.lines.length ≤ b.max →
      b.writeAll input = some b' →
      b'.max = b.max ∧ b'.lines = lastN (b.lines ++ input) b.max := by
  induction input with
  | nil =>
    intro b b' hlen h
    unfold LogBuffer.writeAll at h
    injection h with h
    subst h
    refine ⟨rfl, ?_⟩
    unfold lastN
    rw [List.append_nil]
    have : b.lines.length - b.max = 0 := by omega
    rw [this, List.drop_zero]
  | cons line rest ih =>
    intro b b' hlen h
    unfold LogBuffer.writeAll at h
    cases hw : b.write line with
    | none => rw [hw] at h; exact absurd h (by simp)
    | some p =>
      rw [hw] at h
      obtain ⟨b1, n⟩ := p
      obtain ⟨hmax1, hlines1⟩ := write_some_eq b line b1 n hlen hw
      have hlen1 : b1.lines.length ≤ b1.max := by
        rw [hlines1, lastN_length, hmax1]
        omega
      obtain ⟨hmax2, hlines2⟩ := ih b1 b' hlen1 h
      refine ⟨by rw [hmax2, hmax1], ?_⟩
      rw [hlines2, hlines1, hmax1, lastN_append, List.append_assoc]
      rfl

/-- Claim C4: For every LogBuffer of capacity `N` and every finite sequence of
appended lines (that completes without the capacity-0 panic), the buffer
holds at most `N` lines, and for every `k ≤ N`, `lastLogLines k` returns
exactly the `min k size` most recently appended lines in chronological
order (oldest of the returned window first). -/
theorem logBuffer_capacity_lastLines (N k : Nat) (input : List String) (buf : LogBuffer)
    (h : (NewLogBuffer N).writeAll input = some buf) (hk : k ≤ N) :
    buf.lines.length ≤ N ∧
      buf.lastLogLines k = lastN input (min k buf.lines.length) := by
  obtain ⟨hmax, hlines⟩ := writeAll_some input (NewLogBuffer N) buf (by simp [NewLogBuffer]) h
  simp only [NewLogBuffer, List.nil_append] at hmax hlines
  have hlenb : buf.lines.length = min N input.length := by
    rw [hlines, lastN_length]
  refine ⟨by omega, ?_⟩
  unfold LogBuffer.lastLogLines
  rw [hlines]
  unfold lastN
  rw [List.drop_drop]
  simp only [List.length_drop]
  congr 1
  split <;> omega

/-- Witness for C4: capacity 2, appends `["a","b","c"]`, query `k = 2`. -/
theorem logBuffer_capacity_lastLines_witness :
    (NewLogBuffer 2).writeAll ["a", "b", "c"] = some (LogBuffer.mk ["b", "c"] 2) ∧
      2 ≤ 2 ∧
      ((LogBuffer.mk ["b", "c"] 2).lines.length ≤ 2 ∧
        (LogBuffer.mk ["b", "c"] 2).lastLogLines 2 =
          lastN ["a", "b", "c"] (min 2 (LogBuffer.mk ["b", "c"] 2).lines.length)) :=
  ⟨by decide, by decide,
    logBuffer_capacity_lastLines 2 2 ["a", "b", "c"] (LogBuffer.mk ["b", "c"] 2)
      (by decide) (by decide)⟩

/-- Claim C5, counterexample: The claim asserts append never fails or panics
for any capacity including 0; but on a LogBuffer of capacity 0 the very
first append executes `append(b.lines[1:], line)` with `cap(b.lines) = 0`,
which panics in Go (slice bound out of range).  The model returns `none`
(panic) there. -/
theorem logBuffer_write_capacity_zero_panics :
    (NewLogBuffer 0).write "x" = none := by decide

/-- Claim C5, amended: For every LogBuffer of capacity at least 1, append
always succeeds (never panics, never returns an error): when the buffer
is at (or above) capacity it evicts the single oldest line first,
otherwise it appends at the end, and it reports `(len(p), nil)`. -/
theorem logBuffer_write_succeeds_of_pos_capacity (b : LogBuffer) (s : String)
    (h : 1 ≤ b.max) :
    b.write s = some
      ({ b with lines := if b.lines.length ≥ b.max then b.lines.drop 1 ++ [s]
                         else b.lines ++ [s] }, s.length) := by
  unfold LogBuffer.write
  split_ifs with h1 h2
  · exact absurd h2 (by omega)
  · simp [h1]
  · simp [h1]

/-- Witness for C5 (amended): a full capacity-1 buffer accepts a new line,
evicting the old one. -/
theorem logBuffer_write_succeeds_of_pos_capacity_witness :
    1 ≤ (LogBuffer.mk ["a"] 1).max ∧
      (LogBuffer.mk ["a"] 1).write "b" = some (LogBuffer.mk ["b"] 1, 1) := by
  refine ⟨by decide, ?_⟩
  have h := logBuffer_write_succeeds_of_pos_capacity (LogBuffer.mk ["a"] 1) "b" (by decide)
  simpa using h

/-- The source regexp and the fixed-width template of the spec describe the
same 30-position anchored pattern. -/
theorem errPattern_eq_spec : errPattern = specErrPattern := by decide

/-- Claim C1, code-bug evaluation: On the record
`2024-01-02 03:04:05.678 [ERR] boom` the backend invokes the error
callback with payload `"[ERR] boom"` — the 24-byte strip removes only
the timestamp and its trailing space, leaving the severity-tag remnant,
contrary to the claimed payload `"boom"` (the write-site comment says
"Skip timestamp and [ERR] prefix", which would require 30 bytes).  An
`[INF]` record never invokes the callback, as claimed. -/
theorem errCallback_payload_keeps_tag :
    (backendWithErrCb.write "2024-01-02 03:04:05.678 [ERR] boom").map
        (fun r => r.errCbPayload) = some (some "[ERR] boom") ∧
      (backendWithErrCb.write "2024-01-02 03:04:05.678 [INF] boom").map
        (fun r => r.errCbPayload) = some none := by
  constructor
  · rfl
  · rfl

/-- Claim C6: For every backend with an error callback configured and every
record whose write completes, the error callback is invoked if and only
if the record begins with the fixed-width form
`YYYY-MM-DD HH:MM:SS.mmm [ERR] ` (spec-side template pattern), and the
payload it receives is the remainder of the record after removing exactly
its first 24 characters. -/
theorem errCallback_iff_pattern (b : LogBackend) (p : String) (r : WriteResult)
    (hcb : b.hasErrCb = true) (h : b.write p = some r) :
    r.errCbPayload =
      if matchesPat specErrPattern p.data then some (p.drop 24) else none := by
  unfold LogBackend.write at h
  cases hw : b.logBuffer.write p with
  | none => rw [hw] at h; exact absurd h (by simp)
  | some q =>
    rw [hw] at h
    obtain ⟨buf', m⟩ := q
    injection h with h
    subst h
    simp only [hcb, Bool.true_and]
    rw [show errMsgMatch p = matchesPat specErrPattern p.data by
      unfold errMsgMatch; rw [errPattern_eq_spec]]

/-- Witness for C6: concrete matching record through the concrete
backend. -/
theorem errCallback_iff_pattern_witness :
    backendWithErrCb.hasErrCb = true ∧
      backendWithErrCb.write "2024-01-02 03:04:05.678 [ERR] x" =
        some { backend := { backendWithErrCb with
                 logBuffer := LogBuffer.mk ["2024-01-02 03:04:05.678 [ERR] x"] 100 }
               logCbPayload := none
               errCbPayload := some "[ERR] x"
               count := 31 } ∧
      ({ backend := { backendWithErrCb with
           logBuffer := LogBuffer.mk ["2024-01-02 03:04:05.678 [ERR] x"] 100 }
         logCbPayload := none
         errCbPayload := some "[ERR] x"
         count := 31 : WriteResult }).errCbPayload =
        if matchesPat specErrPattern ("2024-01-02 03:04:05.678 [ERR] x").data
        then some (("2024-01-02 03:04:05.678 [ERR] x").drop 24) else none := by
  refine ⟨rfl, by decide, ?_⟩
  exact errCallback_iff_pattern backendWithErrCb "2024-01-02 03:04:05.678 [ERR] x"
    _ rfl (by decide)

theorem parseDebugTokens_ok_iff (ts : List String) :
    ∀ (d : Level) (m : List (String × Level)),
      (parseDebugTokens ts d m).isOk = true ↔
        ∀ v ∈ ts, (goSplit v '=').length = 1 ∨ (goSplit v '=').length = 2 := by
  induction ts with
  | nil => intro d m; simp [parseDebugTokens, Except.isOk, Except.toBool]
  | cons v rest ih =>
    intro d m
    rw [List.forall_mem_cons]
    cases hsp : goSplit v '=' with
    | nil =>
      simp [parseDebugTokens, hsp, Except.isOk, Except.toBool]
    | cons f0 t =>
      cases t with
      | nil =>
        simp only [parseDebugTokens, hsp]
        split
        · rw [ih]
          simp [hsp]
        · rw [ih]
          simp [hsp]
      | cons f1 t2 =>
        cases t2 with
        | nil =>
          simp only [parseDebugTokens, hsp]
          rw [ih]
          simp [hsp]
        | cons f2 t3 =>
          simp [parseDebugTokens, hsp, Except.isOk, Except.toBool]

/-- Claim C3, counterexample: the token `bogus` is not a recognized severity, yet
`NewLogBackend` succeeds: the source discards the `ok` flag of
`LevelFromString`, silently treating the malformed token as info, so a
malformed debug-level spec of this shape does not produce an error. -/
theorem newLogBackend_accepts_unknown_severity :
    (NewLogBackend cfgBogus).isOk = true ∧ (levelFromString "bogus").2 = false := by
  constructor
  · decide
  · decide

/-- Claim C3, amended: `NewLogBackend` returns an error exactly when the
debug-level string is non-empty and some comma-separated token splits
into three or more `=`-separated fields; bare or `subsystem=severity`
tokens with unrecognized severities are accepted silently (mapped to
info). -/
theorem newLogBackend_ok_iff (config : LogConfig) :
    (NewLogBackend config).isOk = true ↔
      (config.debugLevel = "" ∨
        ∀ v ∈ goSplit config.debugLevel ',',
          (goSplit v '=').length = 1 ∨ (goSplit v '=').length = 2) := by
  unfold NewLogBackend
  by_cases hd : config.debugLevel = ""
  · simp [hd, Except.isOk, Except.toBool]
  · rw [if_neg hd]
    have hiff := parseDebugTokens_ok_iff (goSplit config.debugLevel ',')
      (initialBackend config).defaultLogLevel (initialBackend config).logLevels
    cases hp : parseDebugTokens (goSplit config.debugLevel ',')
        (initialBackend config).defaultLogLevel (initialBackend config).logLevels with
    | error e =>
      rw [hp] at hiff
      simp [Except.isOk, Except.toBool] at hiff
      simp [hp, Except.isOk, Except.toBool, hd]
      exact hiff
    | ok p =>
      obtain ⟨d, m⟩ := p
      rw [hp] at hiff
      simp [Except.isOk, Except.toBool] at hiff
      simp [hp, Except.isOk, Except.toBool, hd]
      exact hiff

theorem lookup_append_none (l1 l2 : List (String × Level)) (k : String)
    (h : l1.lookup k = none) : (l1 ++ l2).lookup k = l2.lookup k := by
  induction l1 with
  | nil => rfl
  | cons e rest ih =>
    obtain ⟨a, v⟩ := e
    cases hk : (k == a) with
    | true => simp [List.lookup, hk] at h
    | false =>
      simp only [List.lookup, hk, List.cons_append] at h ⊢
      exact ih h

/-- Claim C7: Repeated calls to `logger name` return the identical cached
handle and leave the backend unchanged on the second call (so at most one
handle is ever created per name), the handle is registered in the cache,
and its level is the already-registered one if present, else the
subsystem override if configured, else the backend default (so at first
creation the effective level is override-or-default). -/
theorem logger_idempotent_cached (b : LogBackend) (subsys : String) :
    (b.logger subsys).1.logger subsys = b.logger subsys ∧
      (b.logger subsys).2 = (subsys,
        (b.loggers.lookup subsys).getD
          ((b.logLevels.lookup subsys).getD b.defaultLogLevel)) ∧
      (b.logger subsys).1.loggers.lookup subsys = some (b.logger subsys).2.2 := by
  cases hl : b.loggers.lookup subsys with
  | some lvl =>
    refine ⟨?_, ?_, ?_⟩
    · simp [LogBackend.logger, hl]
    · simp [LogBackend.logger, hl]
    · simp [LogBackend.logger, hl]
  | none =>
    have hl2 : ((b.loggers ++
        [(subsys, (b.logLevels.lookup subsys).getD b.defaultLogLevel)]).lookup subsys) =
        some ((b.logLevels.lookup subsys).getD b.defaultLogLevel) := by
      rw [lookup_append_none _ _ _ hl]
      simp [List.lookup]
    refine ⟨?_, ?_, ?_⟩
    · simp [LogBackend.logger, hl, hl2]
    · simp [LogBackend.logger, hl]
    · simp [LogBackend.logger, hl, hl2]

/-- Claim C8, counterexample: The empty spec contains no recognized severity
token (`LevelFromString "" = (info, false)`), yet `SetLogLevel ""`
returns `nil` and changes nothing — the source returns early on `""` —
while the claim requires a parse error for every spec without a
recognized severity token. -/
theorem setLogLevel_empty_no_error :
    backendWithErrCb.setLogLevel "" = (backendWithErrCb, none) ∧
      (levelFromString "").2 = false := by
  exact ⟨rfl, by decide⟩

/-- Claim C8, amended: Except for the empty spec (accepted as a no-op
without error): a bare recognized severity sets the default level and
re-applies it to every instantiated logger lacking an explicit override
(overridden loggers unchanged); a `subsystem=severity` token with a
recognized severity records the override and immediately updates that
logger if instantiated; an unrecognized severity or a token with three
or more `=`-fields yields a parse error. -/
theorem setLogLevel_cases (b : LogBackend) (s : String) (f0 sub f1 : String) :
    (b.setLogLevel "" = (b, none)) ∧
    (goSplit s '=' = [f0] → (levelFromString f0).2 = true →
      b.setLogLevel s =
        ({ b with defaultLogLevel := (levelFromString f0).1,
                  loggers := b.loggers.map (fun e =>
                    if (b.logLevels.lookup e.1).isSome then e
                    else (e.1, (levelFromString f0).1)) }, none)) ∧
    (goSplit s '=' = [sub, f1] → (levelFromString f1).2 = true →
      b.setLogLevel s =
        ({ b with logLevels := mapUpdate b.logLevels sub (levelFromString f1).1,
                  loggers := b.loggers.map (fun e =>
                    if e.1 = sub then (e.1, (levelFromString f1).1) else e) }, none)) ∧
    (s ≠ "" → goSplit s '=' = [f0] → (levelFromString f0).2 = false →
      ((b.setLogLevel s).2).isSome = true) ∧
    (goSplit s '=' = [sub, f1] → (levelFromString f1).2 = false →
      ((b.setLogLevel s).2).isSome = true ∧ (b.setLogLevel s).1 = b) ∧
    (3 ≤ (goSplit s '=').length →
      ((b.setLogLevel s).2).isSome = true ∧ (b.setLogLevel s).1 = b) := by
  have hempty : goSplit "" '=' = [""] := rfl
  refine ⟨?_, ?_, ?_, ?_, ?_, ?_⟩
  · simp [LogBackend.setLogLevel]
  · intro hsp hrec
    by_cases hs : s = ""
    · subst hs
      rw [hempty] at hsp
      injection hsp with h1 _
      subst h1
      exact absurd hrec (by decide)
    · unfold LogBackend.setLogLevel
      rw [if_neg hs, hsp]
      simp [hrec]
  · intro hsp hrec
    by_cases hs : s = ""
    · subst hs
      rw [hempty] at hsp
      exact absurd hsp (by simp)
    · unfold LogBackend.setLogLevel
      rw [if_neg hs, hsp]
      simp [hrec]
  · intro hs hsp hrec
    unfold LogBackend.setLogLevel
    rw [if_neg hs, hsp]
    simp [hrec]
  · intro hsp hrec
    by_cases hs : s = ""
    · subst hs
      rw [hempty] at hsp
      exact absurd hsp (by simp)
    · unfold LogBackend.setLogLevel
      rw [if_neg hs, hsp]
      simp [hrec]
  · intro hlen
    by_cases hs : s = ""
    · subst hs
      rw [hempty] at hlen
      exact absurd hlen (by simp)
    · unfold LogBackend.setLogLevel
      rw [if_neg hs]
      cases hsp : goSplit s '=' with
      | nil => rw [hsp] at hlen; exact absurd hlen (by simp)
      | cons a t =>
        cases t with
        | nil => rw [hsp] at hlen; exact absurd hlen (by simp)
        | cons a2 t2 =>
          cases t2 with
          | nil => rw [hsp] at hlen; exact absurd hlen (by simp)
          | cons a3 t3 => simp

/-- Witness for C8 (amended): `setLevel "warn"` re-applies the new
default to `X` (no override) and leaves `Y` (overridden) unchanged. -/
theorem setLogLevel_cases_witness :
    goSplit "warn" '=' = ["warn"] ∧ (levelFromString "warn").2 = true ∧
      demoBackend.setLogLevel "warn" =
        ({ demoBackend with defaultLogLevel := Level.warn,
                            loggers := [("X", Level.warn), ("Y", Level.debug)] },
          none) := by
  refine ⟨by decide, by decide, ?_⟩
  have h := (setLogLevel_cases demoBackend "warn" "warn" "" "").2.1 (by decide) (by decide)
  rw [h]
  decide

/-- Claim C2, counterexample: With every channel nil, `Run` launches no
tasks and `errgroup.Wait` returns immediately: `Run` returns the nil
(success) value at time 0 without waiting for any cancellation —
refuting both "does not return until the shared context is cancelled"
and "never returns a nil value".  (`exec` is irrelevant as no task
exists; it is instantiated with a constant.) -/
theorem run_all_nil_returns_nil_immediately :
    activeTasks allNilChans = [] ∧
      botRun allNilChans (fun _ => TaskExec.mk 0 none) = none ∧
      botRunReturnTime allNilChans (fun _ => TaskExec.mk 0 none) = 0 := by
  exact ⟨rfl, rfl, rfl⟩

/-- Claim C2, amended: With every notification channel nil, `Run`
launches no tasks and returns immediately with the nil success value,
for every possible task behaviour — it does not block until
cancellation. -/
theorem run_all_nil_amended (exec : TaskKind → TaskExec) :
    activeTasks allNilChans = [] ∧ botRun allNilChans exec = none ∧
      botRunReturnTime allNilChans exec = 0 := by
  exact ⟨rfl, rfl, rfl⟩

theorem firstError_spec (execs : List TaskExec) :
    (firstError execs = none → ∀ t ∈ execs, t.result = none) ∧
      (∀ time e, firstError execs = some (time, e) →
        ((∃ t ∈ execs, t.endTime = time ∧ t.result = some e) ∧
          ∀ t ∈ execs, ∀ e', t.result = some e' → time ≤ t.endTime)) := by
  induction execs with
  | nil => simp [firstError]
  | cons t rest ih =>
    cases hr : t.result with
    | none =>
      have hfe : firstError (t :: rest) = firstError rest := by
        simp only [firstError, hr]
      constructor
      · intro hn u hu
        rcases List.mem_cons.mp hu with h | h
        · rw [h]; exact hr
        · exact ih.1 (hfe ▸ hn) u h
      · intro time e hs
        rw [hfe] at hs
        obtain ⟨⟨u, hu, h1, h2⟩, hmin⟩ := ih.2 time e hs
        refine ⟨⟨u, List.mem_cons_of_mem _ hu, h1, h2⟩, ?_⟩
        intro u hu e' he'
        rcases List.mem_cons.mp hu with h | h
        · rw [h] at he'; rw [he'] at hr; exact absurd hr (by simp)
        · exact hmin u h e' he'
    | some et =>
      cases hf : firstError rest with
      | none =>
        have hfe : firstError (t :: rest) = some (t.endTime, et) := by
          simp only [firstError, hr, hf]
        constructor
        · intro hn; rw [hfe] at hn; exact absurd hn (by simp)
        · intro time e hs
          rw [hfe] at hs
          injection hs with hs
          injection hs with ha hb
          refine ⟨⟨t, List.mem_cons_self _ _, ha, by rw [hr, hb]⟩, ?_⟩
          intro u hu e' he'
          rcases List.mem_cons.mp hu with h | h
          · rw [h]; omega
          · rw [ih.1 hf u h] at he'; exact absurd he' (by simp)
      | some p =>
        obtain ⟨t1, e1⟩ := p
        obtain ⟨⟨u1, hu1, h11, h12⟩, hmin1⟩ := ih.2 t1 e1 hf
        by_cases hlt : t1 < t.endTime
        · have hfe : firstError (t :: rest) = some (t1, e1) := by
            simp only [firstError, hr, hf]
            rw [if_pos hlt]
          constructor
          · intro hn; rw [hfe] at hn; exact absurd hn (by simp)
          · intro time e hs
            rw [hfe] at hs
            injection hs with hs
            injection hs with ha hb
            subst ha; subst hb
            refine ⟨⟨u1, List.mem_cons_of_mem _ hu1, h11, h12⟩, ?_⟩
            intro u hu e' he'
            rcases List.mem_cons.mp hu with h | h
            · rw [h]; omega
            · exact hmin1 u h e' he'
        · have hfe : firstError (t :: rest) = some (t.endTime, et) := by
            simp only [firstError, hr, hf]
            rw [if_neg hlt]
          constructor
          · intro hn; rw [hfe] at hn; exact absurd hn (by simp)
          · intro time e hs
            rw [hfe] at hs
            injection hs with hs
            injection hs with ha hb
            refine ⟨⟨t, List.mem_cons_self _ _, ha, by rw [hr, hb]⟩, ?_⟩
            intro u hu e' he'
            rcases List.mem_cons.mp hu with h | h
            · rw [h]; omega
            · have := hmin1 u h e' he'
              omega

theorem waitReturnTime_ge (execs : List TaskExec) :
    ∀ t ∈ execs, t.endTime ≤ waitReturnTime execs := by
  induction execs with
  | nil => simp
  | cons t rest ih =>
    intro u hu
    rw [waitReturnTime]
    rcases List.mem_cons.mp hu with h | h
    · rw [h]; exact le_max_left _ _
    · exact le_trans (ih u h) (le_max_right _ _)

/-- Claim C9: For a run with at least one active subscription in which
some task `t` fails first (strictly earliest error among the launched
tasks — errors at distinct times, as concurrent identical-time failures
are resolved nondeterministically by the scheduler), `Run` surfaces
exactly that first error, and `Run` returns no earlier than every
stop time of any launched task: every task has been signalled to stop and has
returned before `Run` returns, and no partial-success value exists —
the cancellation reason, when the caller cancels, reaches `Run` the same
way as the returned error of each task. -/
theorem run_first_error_after_all_stopped (chans : BotChans)
    (exec : TaskKind → TaskExec) (t : TaskKind) (e : String)
    (hmem : t ∈ activeTasks chans) (hres : (exec t).result = some e)
    (hmin : ∀ k ∈ activeTasks chans, ((exec k).result).isSome = true → k ≠ t →
      (exec t).endTime < (exec k).endTime) :
    botRun chans exec = some e ∧
      ∀ k ∈ activeTasks chans, (exec k).endTime ≤ botRunReturnTime chans exec := by
  constructor
  · unfold botRun
    cases hf : firstError ((activeTasks chans).map exec) with
    | none =>
      have := (firstError_spec ((activeTasks chans).map exec)).1 hf (exec t)
        (List.mem_map_of_mem exec hmem)
      rw [hres] at this
      exact absurd this (by simp)
    | some p =>
      obtain ⟨time, e0⟩ := p
      obtain ⟨⟨u, hu, hut, hur⟩, hmin'⟩ :=
        (firstError_spec ((activeTasks chans).map exec)).2 time e0 hf
      obtain ⟨k, hk, hke⟩ := List.mem_map.mp hu
      have htime : time = (exec t).endTime := by
        have hle : time ≤ (exec t).endTime :=
          hmin' (exec t) (List.mem_map_of_mem exec hmem) e hres
        by_cases hkt : k = t
        · subst hkt
          rw [← hke] at hut
          omega
        · have := hmin k hk (by rw [hke, hur]; rfl) hkt
          rw [← hke] at hut
          omega
      have hkt : k = t := by
        by_contra hne
        have := hmin k hk (by rw [hke, hur]; rfl) hne
        rw [← hke] at hut
        omega
      subst hkt
      rw [← hke] at hur
      rw [hres] at hur
      injection hur with hur
      simp [hur]
  · intro k hk
    exact waitReturnTime_ge ((activeTasks chans).map exec) (exec k)
      (List.mem_map_of_mem exec hk)

/-- Witness for C9: channels `gc` and `pm` active; `pm` fails at time 3
with `boom`, `gc` stops (cancelled) at time 5; `Run` returns `boom` at
time 5 ≥ both stop times. -/
theorem run_first_error_after_all_stopped_witness :
    TaskKind.pm ∈ activeTasks (BotChans.mk true false true false false false false false) ∧
      ((fun k => if k = TaskKind.pm then TaskExec.mk 3 (some "boom")
                 else TaskExec.mk 5 none) TaskKind.pm).result = some "boom" ∧
      botRun (BotChans.mk true false true false false false false false)
          (fun k => if k = TaskKind.pm then TaskExec.mk 3 (some "boom")
                    else TaskExec.mk 5 none) = some "boom" ∧
      botRunReturnTime (BotChans.mk true false true false false false false false)
          (fun k => if k = TaskKind.pm then TaskExec.mk 3 (some "boom")
                    else TaskExec.mk 5 none) = 5 := by
  have h := run_first_error_after_all_stopped
    (BotChans.mk true false true false false false false false)
    (fun k => if k = TaskKind.pm then TaskExec.mk 3 (some "boom")
              else TaskExec.mk 5 none)
    TaskKind.pm "boom" (by decide) (by decide)
    (by
      intro k hk hsome hne
      revert hk hsome hne
      cases k <;> decide)
  exact ⟨by decide, by decide, h.1, by decide⟩

theorem getArr_append_lt (h : Heap) (v : List String) (i : Nat)
    (hi : i < h.arrays.length) :
    getArr ⟨h.arrays ++ [v]⟩ i = getArr h i := by
  unfold getArr
  rw [List.get?_append hi]

theorem getArr_append_self (h : Heap) (v : List String) :
    getArr ⟨h.arrays ++ [v]⟩ h.arrays.length = v := by
  unfold getArr
  rw [List.get?_concat_length]
  rfl

theorem getArr_set_ne (h : Heap) (i j : Nat) (v : List String) (hij : i ≠ j) :
    getArr ⟨h.arrays.set i v⟩ j = getArr h j := by
  unfold getArr
  rw [List.get?_set_ne _ _ hij]

theorem setSliceIdx_frame (h : Heap) (s : GoSlice) (i : Nat) (v : String)
    (j : Nat) (hj : s.arr ≠ j) :
    getArr (setSliceIdx h s i v) j = getArr h j :=
  getArr_set_ne h s.arr j _ hj

theorem goAppend_frame (h : Heap) (s : GoSlice) (x : String) (j : Nat)
    (hj : j ≠ s.arr) (hlt : j < h.arrays.length) :
    getArr (goAppend h s x).1 j = getArr h j := by
  unfold goAppend
  split
  · exact getArr_set_ne h s.arr j _ (fun he => hj he.symm)
  · exact getArr_append_lt h _ j hlt

/-- Claim C10: The slice returned by `lastLogLines n` is an independent
copy of the `min n size` most recent buffered lines: it lives in a fresh
backing array distinct from that of the buffer, its contents are exactly the
copied window, taking it does not disturb the buffer, a subsequent
(successful) append to the buffer leaves the contents of the returned slice
unchanged, and writing any index of the returned slice leaves the
contents of the buffer unchanged. -/
theorem lastLogLines_independent_copy (h : Heap) (b : LogBufferH) (n : Nat)
    (line : String) (h2 : Heap) (b2 : LogBufferH) (i : Nat) (v : String)
    (hwf : b.lines.arr < h.arrays.length)
    (hlen : b.lines.off + b.lines.len ≤ (getArr h b.lines.arr).length)
    (hw : writeH (lastLogLinesH h b n).1 b line = some (h2, b2)) :
    (lastLogLinesH h b n).2.arr ≠ b.lines.arr ∧
      readSlice (lastLogLinesH h b n).1 (lastLogLinesH h b n).2 =
        (readSlice h b.lines).drop
          (b.lines.len - (if n > b.lines.len then b.lines.len else n)) ∧
      readSlice (lastLogLinesH h b n).1 b.lines = readSlice h b.lines ∧
      readSlice h2 (lastLogLinesH h b n).2 =
        readSlice (lastLogLinesH h b n).1 (lastLogLinesH h b n).2 ∧
      readSlice (setSliceIdx (lastLogLinesH h b n).1 (lastLogLinesH h b n).2 i v)
          b.lines =
        readSlice (lastLogLinesH h b n).1 b.lines := by
  have harr : (lastLogLinesH h b n).2.arr = h.arrays.length := rfl
  have hne : (lastLogLinesH h b n).2.arr ≠ b.lines.arr := by
    rw [harr]; omega
  have hcontentlen :
      ((readSlice h b.lines).drop
        (b.lines.len - (if n > b.lines.len then b.lines.len else n))).length =
        (if n > b.lines.len then b.lines.len else n) := by
    unfold readSlice
    rw [List.length_drop, List.length_take, List.length_drop]
    split <;> omega
  have hget1 : getArr (lastLogLinesH h b n).1 (lastLogLinesH h b n).2.arr =
      (readSlice h b.lines).drop
        (b.lines.len - (if n > b.lines.len then b.lines.len else n)) := by
    rw [harr]
    show getArr ⟨h.arrays ++ [_]⟩ h.arrays.length = _
    rw [getArr_append_self]
    rw [hcontentlen]
    simp
  have hbufget : getArr (lastLogLinesH h b n).1 b.lines.arr = getArr h b.lines.arr :=
    getArr_append_lt h _ b.lines.arr hwf
  refine ⟨hne, ?_, ?_, ?_, ?_⟩
  · unfold readSlice
    rw [hget1]
    show ((_ : List String).drop 0).take (if n > b.lines.len then b.lines.len else n) = _
    rw [List.drop_zero]
    exact List.take_all_of_le (le_of_eq hcontentlen)
  · unfold readSlice
    rw [hbufget]
  · -- the write touches only the buffer's array or a freshly allocated
    -- one, never the returned copy's array
    have hx : getArr h2 (lastLogLinesH h b n).2.arr =
        getArr (lastLogLinesH h b n).1 (lastLogLinesH h b n).2.arr := by
      have hlt1 : (lastLogLinesH h b n).2.arr <
          ((lastLogLinesH h b n).1).arrays.length := by
        rw [harr]
        show h.arrays.length < (h.arrays ++ [_]).length
        simp
      unfold writeH at hw
      split_ifs at hw with h1 h01
      all_goals
        rw [Option.some_inj, Prod.mk.injEq] at hw
        rw [← hw.1]
        exact goAppend_frame _ _ _ _ hne hlt1
    unfold readSlice
    rw [hx]
  · unfold readSlice
    rw [setSliceIdx_frame _ _ _ _ _ hne]

/-- Witness for C10: a two-line full buffer in array 0; `lastLogLines 1`
copies `["y"]` into fresh array 1; a subsequent append (eviction)
reallocates into array 2 and leaves array 1 untouched; writing the
returned slice touches only array 1. -/
theorem lastLogLines_independent_copy_witness :
    (GoSlice.mk 0 0 2 2).arr < (Heap.mk [["x", "y"]]).arrays.length ∧
      writeH (lastLogLinesH (Heap.mk [["x", "y"]])
          (LogBufferH.mk (GoSlice.mk 0 0 2 2) 2) 1).1
          (LogBufferH.mk (GoSlice.mk 0 0 2 2) 2) "z" =
        some (Heap.mk [["x", "y"], ["y"], ["y", "z", ""]],
          LogBufferH.mk (GoSlice.mk 2 0 2 3) 2) ∧
      readSlice (Heap.mk [["x", "y"], ["y"], ["y", "z", ""]])
          (lastLogLinesH (Heap.mk [["x", "y"]])
            (LogBufferH.mk (GoSlice.mk 0 0 2 2) 2) 1).2 =
        readSlice (lastLogLinesH (Heap.mk [["x", "y"]])
            (LogBufferH.mk (GoSlice.mk 0 0 2 2) 2) 1).1
          (lastLogLinesH (Heap.mk [["x", "y"]])
            (LogBufferH.mk (GoSlice.mk 0 0 2 2) 2) 1).2 ∧
      readSlice (setSliceIdx (lastLogLinesH (Heap.mk [["x", "y"]])
            (LogBufferH.mk (GoSlice.mk 0 0 2 2) 2) 1).1
          (lastLogLinesH (Heap.mk [["x", "y"]])
            (LogBufferH.mk (GoSlice.mk 0 0 2 2) 2) 1).2 0 "w")
          (GoSlice.mk 0 0 2 2) =
        readSlice (lastLogLinesH (Heap.mk [["x", "y"]])
            (LogBufferH.mk (GoSlice.mk 0 0 2 2) 2) 1).1 (GoSlice.mk 0 0 2 2) := by
  have h := lastLogLines_independent_copy (Heap.mk [["x", "y"]])
    (LogBufferH.mk (GoSlice.mk 0 0 2 2) 2) 1 "z"
    (Heap.mk [["x", "y"], ["y"], ["y", "z", ""]])
    (LogBufferH.mk (GoSlice.mk 2 0 2 3) 2) 0 "w"
    (by decide) (by decide) (by decide)
  exact ⟨by decide, by decide, h.2.2.2.1, h.2.2.2.2⟩

end BisonBotKit
